import Mathlib

/-!
Shallow embedding of the playing-card image classifier (src/model.py and
src/main.py), and proofs of the specification's claims about it.

Conventions of the embedding:
* Machine floating-point numbers are modelled by `ℚ`.
* External library components that the repository only calls (the timm
  backbone's forward pass, autograd, the Adam update rule, the real
  exponential inside `torch.nn.functional.softmax`) are parameters of the
  embedding, collected in `TorchLib`; the repository's own code is
  translated line by line.
* Python exceptions (`ZeroDivisionError`, `FileNotFoundError`, the strict
  key check of `load_state_dict`) are made explicit with `Except`.
-/

namespace Card

/-- Python runtime errors that the translated code can raise. -/
inductive PyError where
  | zeroDivisionError
  | fileNotFoundError
  | stateDictMismatch
deriving DecidableEq

/-- Python's `/` on numbers: raises `ZeroDivisionError` on a zero divisor,
otherwise true division. -/
def pydiv (a b : ℚ) : Except PyError ℚ :=
  if b = 0 then .error .zeroDivisionError else .ok (a / b)

/-! ## Images and the shared transform (model.py lines 43-46, 204-206) -/

/-- A decoded RGB image (`PIL.Image` after `.convert("RGB")`): a width, a
height, and an 8-bit RGB value at each coordinate. -/
structure Img where
  width : ℕ
  height : ℕ
  pix : ℕ → ℕ → ℕ × ℕ × ℕ

/-- A valid decoded image: non-degenerate dimensions and 8-bit channel
values (at most 255) at every in-range coordinate. -/
def Img.valid (im : Img) : Prop :=
  0 < im.width ∧ 0 < im.height ∧
    ∀ x y, x < im.width → y < im.height →
      (im.pix x y).1 ≤ 255 ∧ (im.pix x y).2.1 ≤ 255 ∧ (im.pix x y).2.2 ≤ 255

/-- The resize step `transforms.Resize((h, w))`: produce an image of the target size whose
pixel at `(x, y)` is sampled from the source at proportional coordinates
(nearest-style resampling; the exact interpolation kernel is a library
detail, and every resampling scheme reads only in-range source pixels). -/
def Img.resize (size : ℕ × ℕ) (im : Img) : Img :=
  { width := size.2
    height := size.1
    pix := fun x y => im.pix (x * im.width / size.2) (y * im.height / size.1) }

/-- An image tensor: channels × rows × columns of rational values. -/
abbrev TensorI := List (List (List ℚ))

/-- One channel of `transforms.ToTensor()`: the selected 8-bit component at
each coordinate, scaled into `[0, 1]` by division by 255. -/
def channelOf (sel : ℕ × ℕ × ℕ → ℕ) (im : Img) : List (List ℚ) :=
  (List.range im.height).map fun y =>
    (List.range im.width).map fun x => (sel (im.pix x y) : ℚ) / 255

/-- The conversion `transforms.ToTensor()`: a 3 × height × width tensor with each channel
scaled to `[0, 1]`. -/
def Img.toTensor (im : Img) : TensorI :=
  [channelOf (fun c => c.1) im, channelOf (fun c => c.2.1) im,
    channelOf (fun c => c.2.2) im]

/-- model.py lines 43-46: the module-level transform,
`Compose([Resize((128, 128)), ToTensor()])`, shared by every dataset and by
`preprocess_image`. -/
def transforms (im : Img) : TensorI := (im.resize (128, 128)).toTensor

/-! ## Directory-per-class datasets (model.py lines 27-56, 138) -/

/-- One immediate subdirectory of a dataset root: its name (the class
label) and the decoded images it contains, in filesystem order. -/
structure ClassDir where
  name : String
  images : List Img

/-- The `torchvision.datasets.ImageFolder` class discovery: the sorted list of
the immediate subdirectory names of the root. -/
def find_classes (dirs : List ClassDir) : List String :=
  List.insertionSort (· ≤ ·) (dirs.map (·.name))

/-- An `ImageFolder`: the derived class vocabulary and the samples, each
image paired with the index of its class in the sorted vocabulary. -/
structure ImageFolder where
  classes : List String
  samples : List (Img × ℕ)

/-- Build an `ImageFolder` from the subdirectories of a root: classes are
the sorted subdirectory names, and samples enumerate the subdirectories in
sorted order, labelling each image with its class index. -/
def imageFolderOf (dirs : List ClassDir) : ImageFolder :=
  { classes := find_classes dirs
    samples :=
      ((List.insertionSort (fun a b : ClassDir => a.name ≤ b.name) dirs).enum.map
        fun p => p.2.images.map fun im => (im, p.1)).flatten }

/-- model.py lines 27-39: `PlayingCardDataset` wraps an `ImageFolder`
built with the shared transform. -/
structure PlayingCardDataset where
  data : ImageFolder

/-- Construct a `PlayingCardDataset` from a root directory's subdirectories
(`PlayingCardDataset(data_dir, transforms)`). -/
def PlayingCardDataset.ofDir (dirs : List ClassDir) : PlayingCardDataset :=
  ⟨imageFolderOf dirs⟩

/-- Length, `__len__`. -/
def PlayingCardDataset.len (d : PlayingCardDataset) : ℕ :=
  d.data.samples.length

/-- Indexing, `__getitem__`: the transformed image and its label; out-of-range
indices are an error (`none`). -/
def PlayingCardDataset.getitem (d : PlayingCardDataset) (i : ℕ) :
    Option (TensorI × ℕ) :=
  (d.data.samples.get? i).map fun s => (transforms s.1, s.2)

/-- Iterating the dataset in order, as `test_model` does. -/
def PlayingCardDataset.items (d : PlayingCardDataset) : List (TensorI × ℕ) :=
  d.data.samples.map fun s => (transforms s.1, s.2)

/-- The `classes` property. -/
def PlayingCardDataset.classes (d : PlayingCardDataset) : List String :=
  d.data.classes

/-- The on-disk dataset layout the module-level code reads at import time:
the subdirectories of `./dataset/train`, `./dataset/valid`,
`./dataset/test`. -/
structure DatasetWorld where
  trainDirs : List ClassDir
  validDirs : List ClassDir
  testDirs : List ClassDir

/-- model.py line 54. -/
def train_dataset (w : DatasetWorld) : PlayingCardDataset :=
  PlayingCardDataset.ofDir w.trainDirs

/-- model.py line 55. -/
def val_dataset (w : DatasetWorld) : PlayingCardDataset :=
  PlayingCardDataset.ofDir w.validDirs

/-- model.py line 56. -/
def test_dataset (w : DatasetWorld) : PlayingCardDataset :=
  PlayingCardDataset.ofDir w.testDirs

/-- model.py line 138: `class_names = test_dataset.classes` — the
vocabulary used to name predictions, derived from the test split alone. -/
def class_names (w : DatasetWorld) : List String :=
  (test_dataset w).classes

/-! ## The classifier and its parameter state (model.py lines 63-78) -/

/-- A flattened parameter or buffer tensor. -/
abbrev Tensor := List ℚ

/-- A named mapping from parameter names to tensor values, as in a PyTorch
module's parameter (or buffer) dictionary. -/
abbrev ParamState := List (String × Tensor)

/-- The keys of a named tensor mapping. -/
def keysOf (st : ParamState) : List String := st.map (·.1)

/-- The `SimpleCardClassifier`: the learnable parameters (backbone plus the new
linear head), the non-learnable buffers (e.g. batch-norm running
statistics), and the training/evaluation mode flag.  The numeric weights
are opaque data here; the forward computation lives in `TorchLib`. -/
structure SimpleCardClassifier where
  params : ParamState
  buffers : ParamState
  training : Bool

/-- A `state_dict()`: the full persisted state — parameters and buffers. -/
structure StateDict where
  params : ParamState
  buffers : ParamState
deriving DecidableEq

/-- Reading `model.state_dict()`. -/
def SimpleCardClassifier.state_dict (m : SimpleCardClassifier) : StateDict :=
  ⟨m.params, m.buffers⟩

/-- Loading, `model.load_state_dict(sd)` (strict, the default): succeeds only when
the loaded keys match the module's keys exactly, and then overwrites every
parameter and buffer with the loaded values. -/
def SimpleCardClassifier.load_state_dict (m : SimpleCardClassifier)
    (sd : StateDict) : Except PyError SimpleCardClassifier :=
  if keysOf sd.params = keysOf m.params ∧ keysOf sd.buffers = keysOf m.buffers
  then .ok { m with params := sd.params, buffers := sd.buffers }
  else .error .stateDictMismatch

/-- The checkpoint filesystem: a path either holds a serialized state
dictionary or nothing. -/
def FS := String → Option StateDict

/-- Saving, `torch.save(sd, path)`: write the state dictionary at the path,
overwriting whatever was there. -/
def torch_save (sd : StateDict) (path : String) (fs : FS) : FS :=
  fun p => if p = path then some sd else fs p

/-- Loading, `torch.load(path)`: read the state dictionary at the path; a missing
file raises `FileNotFoundError`. -/
def torch_load (fs : FS) (path : String) : Except PyError StateDict :=
  match fs path with
  | some sd => .ok sd
  | none => .error .fileNotFoundError

/-- State kept by the Adam optimizer between steps (first and second
moment estimates per parameter); its contents are opaque here. -/
abbrev AdamState := List (String × (Tensor × Tensor))

/-- The external deep-learning library, abstracted: the backbone-plus-head
forward pass, the train-mode buffer update, the cross-entropy criterion,
autograd, the Adam update rule, and the exponential used by softmax.  The
repository only calls these; it implements none of them.  Of `exp`, the
code relies on positivity and strict monotonicity, which the claims'
theorems take as hypotheses. -/
structure TorchLib where
  net : ParamState → ParamState → TensorI → List ℚ
  updateBuffers : ParamState → List TensorI → ParamState
  crossEntropy : List (List ℚ) → List ℕ → ℚ
  grad : ParamState → ParamState → List (TensorI × ℕ) → ParamState
  adamInit : ParamState → AdamState
  adamStep : ℚ → AdamState → ParamState → ParamState → ParamState × AdamState
  exp : ℚ → ℚ

/-- A forward pass `model(x)` on one image tensor in the current mode: the logits, and
the module state after the call — a train-mode forward updates the running
buffers, an eval-mode forward leaves the module unchanged. -/
def forwardRun (L : TorchLib) (m : SimpleCardClassifier) (x : TensorI) :
    List ℚ × SimpleCardClassifier :=
  (L.net m.params m.buffers x,
    if m.training then { m with buffers := L.updateBuffers m.buffers [x] } else m)

/-- The library softmax `torch.nn.functional.softmax` on one row of logits:
`exp (v i) / Σ j, exp (v j)`. -/
def softmax (e : ℚ → ℚ) (v : List ℚ) : List ℚ :=
  v.map fun x => e x / (v.map e).sum

/-- The `numpy.argmax` recursion: the index of the first occurrence of the maximum;
numpy's result on an empty array is an error, rendered 0 here (reached by
no claim: the logits of a constructed classifier are never empty). -/
def argmaxAux : List ℚ → ℕ → ℕ → ℚ → ℕ
  | [], _, best, _ => best
  | x :: xs, i, best, bv =>
      if bv < x then argmaxAux xs (i + 1) i x else argmaxAux xs (i + 1) best bv

/-- Arg-max, `probabilities.argmax()`. -/
def argmax : List ℚ → ℕ
  | [] => 0
  | x :: xs => argmaxAux xs 1 0 x

/-! ## Loading and single-image inference (model.py lines 155-159, 204-227) -/

/-- model.py lines 155-159: `load_model` — load the checkpoint from disk,
load it into the model strictly, move to the device, and switch to
evaluation mode. -/
def load_model (fs : FS) (model_path : String) (model : SimpleCardClassifier) :
    Except PyError SimpleCardClassifier := do
  let sd ← torch_load fs model_path
  let m ← model.load_state_dict sd
  return { m with training := false }

/-- model.py lines 204-206: `preprocess_image` — the decoded RGB image and
the transformed tensor with a leading batch dimension (`unsqueeze(0)`). -/
def preprocess_image (image : Img) : Img × List TensorI :=
  (image, [transforms image])

/-- The batched forward pass of `predict`: one `forwardRun` per row of the
input tensor, collecting the logit rows. -/
def predictStep (L : TorchLib) (acc : List (List ℚ) × SimpleCardClassifier)
    (x : TensorI) : List (List ℚ) × SimpleCardClassifier :=
  (acc.1 ++ [(forwardRun L acc.2 x).1], (forwardRun L acc.2 x).2)

/-- model.py lines 208-214: `predict` — switch to evaluation mode, run the
batched forward pass without gradient tracking, softmax each row, flatten;
the result is the flat probability vector and the module state after the
call. -/
def predict (L : TorchLib) (model : SimpleCardClassifier)
    (image_tensor : List TensorI) : List ℚ × SimpleCardClassifier :=
  let m := { model with training := false }
  let r := image_tensor.foldl (predictStep L) ([], m)
  ((r.1.map (softmax L.exp)).flatten, r.2)

/-- model.py lines 216-227: `predict_image` — reload the checkpoint into
the (shared default) model, preprocess the image, predict, and return the
named top class with its confidence percentage; the shared model instance
after the call is returned alongside.  The visualization branch is
display-only and affects no returned value. -/
def predict_image (L : TorchLib) (cn : List String) (fs : FS)
    (model_path : String) (image : Img) (model : SimpleCardClassifier) :
    Except PyError ((String × ℚ) × SimpleCardClassifier) := do
  let m ← load_model fs model_path model
  let (_original_image, image_tensor) := preprocess_image image
  let (probabilities, m') := predict L m image_tensor
  let predicted_idx := argmax probabilities
  let predicted_class := cn.getD predicted_idx ""
  let confidence := probabilities.getD predicted_idx 0 * 100
  return ((predicted_class, confidence), m')

/-! ## Evaluation (model.py lines 161-198) -/

/-- The running state of the evaluation loop: the counters and confidence
list initialized at lines 164-166, and the module being queried. -/
structure TestAcc where
  wrong_predictions_count : ℕ
  correct_predictions_count : ℕ
  confidence_list : List ℚ
  m : SimpleCardClassifier

/-- Loop body of `test_model` (lines 168-190): forward without gradients,
softmax, arg-max, record the winning confidence, and count the sample as
wrong or correct.  `predicted_class` and `acutal_class` (lines 176-177) are
bound in the source but feed only the display branch, never the metrics. -/
def testStep (L : TorchLib) (cn : List String) (acc : TestAcc)
    (sample : TensorI × ℕ) : TestAcc :=
  let (image_tensor, label) := sample
  let (outputs, m') := forwardRun L acc.m image_tensor
  let probabilities := softmax L.exp outputs
  let predicted_idx := argmax probabilities
  let _predicted_class := cn.getD predicted_idx ""
  let _acutal_class := cn.getD label ""
  let confidence := probabilities.getD predicted_idx 0 * 100
  let cl := acc.confidence_list ++ [confidence]
  if predicted_idx ≠ label then
    { acc with wrong_predictions_count := acc.wrong_predictions_count + 1
               confidence_list := cl
               m := m' }
  else
    { acc with correct_predictions_count := acc.correct_predictions_count + 1
               confidence_list := cl
               m := m' }

/-- What `test_model` reports (lines 195-198). -/
structure TestReport where
  correct_predictions_count : ℕ
  wrong_predictions_count : ℕ
  acuracy : ℚ
  avr_confidence : ℚ

/-- model.py lines 161-198: `test_model` — load the checkpoint, run every
test sample through the loop, then compute accuracy and mean confidence
with Python division (lines 192-193), which raises `ZeroDivisionError`
when the test set is empty.  The report and the module state after the run
are returned. -/
def test_model (L : TorchLib) (cn : List String) (fs : FS)
    (model_path : String) (model : SimpleCardClassifier)
    (testSet : List (TensorI × ℕ)) :
    Except PyError (TestReport × SimpleCardClassifier) := do
  let m ← load_model fs model_path model
  let acc := testSet.foldl (testStep L cn) ⟨0, 0, [], m⟩
  let frac ← pydiv acc.correct_predictions_count
    ((acc.correct_predictions_count : ℚ) + acc.wrong_predictions_count)
  let acuracy := frac * 100
  let avr_confidence ← pydiv acc.confidence_list.sum acc.confidence_list.length
  return (⟨acc.correct_predictions_count, acc.wrong_predictions_count,
    acuracy, avr_confidence⟩, acc.m)

/-! ## The training loop (model.py lines 85-132) -/

/-- Observable actions of one `train_model` run, in program order. -/
inductive Ev where
  | setTrain
  | setEval
  | zeroGrad
  | forwardPass (batchSize : ℕ)
  | lossCE
  | backward
  | adamStep (lr : ℚ)
  | noGradBegin
  | noGradEnd
  | plotShow
  | save (path : String) (sd : StateDict)
deriving DecidableEq

/-- Whether an event writes a checkpoint. -/
def Ev.isSave : Ev → Bool
  | .save _ _ => true
  | _ => false

/-- A batch produced by a `DataLoader`: image tensors with labels. -/
abbrev Batch := List (TensorI × ℕ)

/-- The state threaded through the training loop: the module and the Adam
optimizer's internal state. -/
structure TrainState where
  m : SimpleCardClassifier
  opt : AdamState

/-- The cross-entropy criterion value of the module at the given
parameters and buffers on one batch (`criterion(model(images), labels)`). -/
def batchCE (L : TorchLib) (p bf : ParamState) (b : Batch) : ℚ :=
  L.crossEntropy ((b.map (·.1)).map (L.net p bf)) (b.map (·.2))

/-- One training batch (lines 98-104): zero the gradients, forward (a
train-mode forward also updates the running buffers), cross-entropy loss,
backward, one Adam step; the loss contribution is `loss.item() *
images.size(0)`. -/
def trainBatch (L : TorchLib) (lr : ℚ) (st : TrainState) (b : Batch) :
    TrainState × ℚ × List Ev :=
  let images := b.map (·.1)
  let loss := batchCE L st.m.params st.m.buffers b
  let buffers' :=
    if st.m.training then L.updateBuffers st.m.buffers images else st.m.buffers
  let g := L.grad st.m.params st.m.buffers b
  let stepped := L.adamStep lr st.opt st.m.params g
  (⟨⟨stepped.1, buffers', st.m.training⟩, stepped.2⟩, loss * b.length,
    [.zeroGrad, .forwardPass b.length, .lossCE, .backward, .adamStep lr])

/-- The training phase of one epoch (lines 96-104): fold `trainBatch` over
the loader's batches, accumulating `running_loss` and the trace. -/
def trainPhase (L : TorchLib) (lr : ℚ) :
    TrainState → List Batch → TrainState × ℚ × List Ev
  | st, [] => (st, 0, [])
  | st, b :: bs =>
      let r := trainBatch L lr st b
      let rest := trainPhase L lr r.1 bs
      (rest.1, r.2.1 + rest.2.1, r.2.2 ++ rest.2.2)

/-- One validation batch (lines 112-116): forward (no buffer update in
evaluation mode, and no gradient tracking), loss, accumulate
`loss.item() * images.size(0)`; no optimizer step. -/
def valBatch (L : TorchLib) (st : TrainState) (b : Batch) :
    TrainState × ℚ × List Ev :=
  let images := b.map (·.1)
  let loss := batchCE L st.m.params st.m.buffers b
  let buffers' :=
    if st.m.training then L.updateBuffers st.m.buffers images else st.m.buffers
  (⟨⟨st.m.params, buffers', st.m.training⟩, st.opt⟩, loss * b.length,
    [.forwardPass b.length, .lossCE])

/-- The validation phase of one epoch (lines 110-116). -/
def valPhase (L : TorchLib) :
    TrainState → List Batch → TrainState × ℚ × List Ev
  | st, [] => (st, 0, [])
  | st, b :: bs =>
      let r := valBatch L st b
      let rest := valPhase L r.1 bs
      (rest.1, r.2.1 + rest.2.1, r.2.2 ++ rest.2.2)

/-- One epoch of `train_model` (lines 93-120): `model.train()`, the
training phase, `train_loss = running_loss / len(train_loader.dataset)`;
`model.eval()`, `torch.no_grad()`, the validation phase, `val_loss =
running_loss / len(val_loader.dataset)`.  Python division raises on an
empty dataset. -/
def epochRun (L : TorchLib) (lr : ℚ) (tb vb : List Batch) (nT nV : ℕ)
    (st : TrainState) : Except PyError (TrainState × ℚ × ℚ × List Ev) := do
  let tr := trainPhase L lr ⟨{ st.m with training := true }, st.opt⟩ tb
  let train_loss ← pydiv tr.2.1 nT
  let vr := valPhase L ⟨{ tr.1.m with training := false }, tr.1.opt⟩ vb
  let val_loss ← pydiv vr.2.1 nV
  return (vr.1, train_loss, val_loss,
    [.setTrain] ++ tr.2.2 ++ [.setEval, .noGradBegin] ++ vr.2.2 ++
      [.noGradEnd])

/-- The epoch loop (line 93), collecting the per-epoch loss lists and the
trace. -/
def epochsRun (L : TorchLib) (lr : ℚ) (tb vb : List Batch) (nT nV : ℕ) :
    ℕ → TrainState → Except PyError (TrainState × List ℚ × List ℚ × List Ev)
  | 0, st => .ok (st, [], [], [])
  | n + 1, st => do
      let r ← epochRun L lr tb vb nT nV st
      let rest ← epochsRun L lr tb vb nT nV n r.1
      return (rest.1, r.2.1 :: rest.2.1, r.2.2.1 :: rest.2.2.1,
        r.2.2.2 ++ rest.2.2.2)

/-- model.py lines 85-132: `train_model` — build the Adam optimizer at
learning rate 0.001, run the epochs, render the loss plot, and only then
save the final `state_dict` to the checkpoint path.  Returns the
filesystem after the save, the trained module, the two loss lists, and the
trace. -/
def train_model (L : TorchLib) (fs : FS) (model_path : String)
    (model : SimpleCardClassifier) (epochs : ℕ) (tb vb : List Batch)
    (nT nV : ℕ) :
    Except PyError
      (FS × SimpleCardClassifier × List ℚ × List ℚ × List Ev) := do
  let st : TrainState := ⟨model, L.adamInit model.params⟩
  let r ← epochsRun L (1 / 1000) tb vb nT nV epochs st
  return (torch_save r.1.m.state_dict model_path fs, r.1.m, r.2.1, r.2.2.1,
    r.2.2.2 ++ [.plotShow, .save model_path r.1.m.state_dict])

/-! ## Specification-side descriptions used in the claims' statements -/

/-- The winning-class confidence of the module on one image, as the spec
describes it: the softmax probability of the arg-max class, as a
percentage. -/
def winningConfidence (L : TorchLib) (m : SimpleCardClassifier)
    (x : TensorI) : ℚ :=
  let p := softmax L.exp (L.net m.params m.buffers x)
  p.getD (argmax p) 0 * 100

/-- Whether the module's arg-max prediction on a sample matches its
label. -/
def isCorrect (L : TorchLib) (m : SimpleCardClassifier)
    (s : TensorI × ℕ) : Bool :=
  argmax (softmax L.exp (L.net m.params m.buffers s.1)) = s.2

/-- The maximum entry of a list of rationals (0 on the empty list). -/
def listMax : List ℚ → ℚ
  | [] => 0
  | x :: xs => xs.foldl max x

/-- The per-batch cross-entropy losses of the training phase, each
weighted by its batch size, at the states the loop passes through. -/
def weightedBatchLosses (L : TorchLib) (lr : ℚ) :
    TrainState → List Batch → List ℚ
  | _, [] => []
  | st, b :: bs =>
      batchCE L st.m.params st.m.buffers b * b.length ::
        weightedBatchLosses L lr (trainBatch L lr st b).1 bs

/-- The actions the spec prescribes for each training batch: zero the
accumulated gradients, forward to logits, cross-entropy loss,
backpropagation, one optimizer step at the given learning rate. -/
def trainBatchTrace (lr : ℚ) (bs : List Batch) : List Ev :=
  (bs.map fun b =>
    [Ev.zeroGrad, .forwardPass b.length, .lossCE, .backward,
      .adamStep lr]).flatten

/-- The actions of each validation batch: forward and loss only. -/
def valBatchTrace (bs : List Batch) : List Ev :=
  (bs.map fun b => [Ev.forwardPass b.length, .lossCE]).flatten

/-- The full action trace of one epoch: training mode, the per-batch
training actions, then evaluation mode with gradient tracking disabled
around the validation batches. -/
def epochTrace (lr : ℚ) (tb vb : List Batch) : List Ev :=
  [.setTrain] ++ trainBatchTrace lr tb ++ [.setEval, .noGradBegin] ++
    valBatchTrace vb ++ [.noGradEnd]

/-- A training state switched to training mode (`model.train()`). -/
def trainModeOf (st : TrainState) : TrainState :=
  ⟨{ st.m with training := true }, st.opt⟩

/-- The state after the training phase of one epoch. -/
def afterTrainPhase (L : TorchLib) (lr : ℚ) (tb : List Batch)
    (st : TrainState) : TrainState :=
  (trainPhase L lr (trainModeOf st) tb).1

/-- The state after one full epoch, as the spec describes it: the
validation phase computes losses in evaluation mode and performs no
parameter update, so an epoch ends exactly at the training phase's state,
switched to evaluation mode.  Note the validation batches do not occur. -/
def epochEndState (L : TorchLib) (lr : ℚ) (tb : List Batch)
    (st : TrainState) : TrainState :=
  ⟨{ (afterTrainPhase L lr tb st).m with training := false },
    (afterTrainPhase L lr tb st).opt⟩

/-- The dataset-size-weighted mean training loss of the epoch that starts
at the given state. -/
def epochTrainLoss (L : TorchLib) (lr : ℚ) (tb : List Batch) (nT : ℕ)
    (st : TrainState) : ℚ :=
  (weightedBatchLosses L lr (trainModeOf st) tb).sum / nT

/-- The dataset-size-weighted mean validation loss of the epoch that
starts at the given state: every validation batch is scored at the
training phase's final parameters. -/
def epochValLoss (L : TorchLib) (lr : ℚ) (tb vb : List Batch) (nV : ℕ)
    (st : TrainState) : ℚ :=
  (vb.map fun b =>
    batchCE L (afterTrainPhase L lr tb st).m.params
      (afterTrainPhase L lr tb st).m.buffers b * b.length).sum / nV

/-! ## Concrete instances used by the closed theorems and witnesses -/

/-- A concrete stand-in for the external library: two classes, constant
logits `[1, 0]`, a buffer-growing train-mode update, and a constant-one
exponential. -/
def cLib : TorchLib :=
  { net := fun _ _ _ => [1, 0]
    updateBuffers := fun bf _ => bf.map fun p => (p.1, p.2 ++ [0])
    crossEntropy := fun _ _ => 1
    grad := fun p _ _ => p
    adamInit := fun p => p.map fun q => (q.1, (q.2, q.2))
    adamStep := fun lr o p _ => (p.map fun q => (q.1, q.2.map (· + lr)), o)
    exp := fun _ => 1 }

/-- A concrete freshly-constructed classifier. -/
def cModel : SimpleCardClassifier := ⟨[("w", [0])], [("rm", [0])], true⟩

/-- A concrete checkpoint compatible with `cModel`. -/
def cSd : StateDict := ⟨[("w", [5])], [("rm", [7])]⟩

/-- The classifier `cModel` after loading `cSd` and switching to
evaluation mode. -/
def cLoaded : SimpleCardClassifier := ⟨[("w", [5])], [("rm", [7])], false⟩

/-- A filesystem holding the checkpoint `cSd` at path `ckpt`. -/
def cFs : FS := fun p => if p = "ckpt" then some cSd else none

/-- A concrete class-name vocabulary. -/
def cNames : List String := ["ace", "joker"]

/-- A concrete valid 1 × 1 black image. -/
def cImg : Img := ⟨1, 1, fun _ _ => (0, 0, 0)⟩

/-- A directory layout whose test split's subdirectory names differ from
the train and validation splits' (`joker` replaces `two`). -/
def mismatchWorld : DatasetWorld :=
  ⟨[⟨"ace", []⟩, ⟨"two", []⟩], [⟨"ace", []⟩, ⟨"two", []⟩],
    [⟨"ace", []⟩, ⟨"joker", []⟩]⟩

/-! ## Helper lemmas -/

/-- Proportional resampling reads only in-range source coordinates. -/
theorem sample_coord_lt (x n w : ℕ) (hx : x < n) (hw : 0 < w) :
    x * w / n < w := by
  have hn : 0 < n := lt_of_le_of_lt (Nat.zero_le x) hx
  have hxw : x * w < w * n := by
    calc x * w < n * w := (Nat.mul_lt_mul_right hw).mpr hx
    _ = w * n := Nat.mul_comm n w
  exact (Nat.div_lt_iff_lt_mul hn).mpr hxw

/-- An evaluation-mode forward pass over a batch neither touches the
parameters nor the buffers: the fold of `predictStep` keeps the module
fixed and collects one logit row per input. -/
theorem foldl_predictStep_eval (L : TorchLib) (m : SimpleCardClassifier)
    (hm : m.training = false) :
    ∀ (xb : List TensorI) (acc : List (List ℚ)),
      xb.foldl (predictStep L) (acc, m) =
        (acc ++ xb.map fun x => L.net m.params m.buffers x, m) := by
  intro xb
  induction xb with
  | nil => intro acc; simp
  | cons x xs ih =>
      intro acc
      rw [List.foldl_cons]
      simp only [predictStep, forwardRun, hm, Bool.false_eq_true, if_false]
      rw [ih]
      simp

/-- Evaluating `predict` in closed form: the flattened per-row softmax of the logits
at the module's parameters and buffers, and the module switched to
evaluation mode, otherwise untouched. -/
theorem predict_eval (L : TorchLib) (m : SimpleCardClassifier)
    (xb : List TensorI) :
    predict L m xb =
      ((xb.map fun x =>
          softmax L.exp (L.net m.params m.buffers x)).flatten,
        { m with training := false }) := by
  simp only [predict]
  rw [foldl_predictStep_eval L { m with training := false } rfl]
  simp [List.map_map, Function.comp_def]

/-! ## The claims -/

/-- C1 (evaluation of the defect): at a directory layout whose test split
names a class `joker` where the train and validation splits name `two`,
the prediction-naming vocabulary `class_names` — derived from the test
split alone at model.py line 138 — differs from the train split's
vocabulary.  The code neither derives the vocabulary once for all
components nor enforces its identity across splits. -/
theorem class_names_from_test_split_only :
    class_names mismatchWorld = ["ace", "joker"] ∧
      (train_dataset mismatchWorld).classes = ["ace", "two"] ∧
      class_names mismatchWorld ≠ (train_dataset mismatchWorld).classes := by
  refine ⟨?_, ?_, ?_⟩ <;>
    simp [class_names, mismatchWorld, train_dataset, test_dataset,
      PlayingCardDataset.ofDir, PlayingCardDataset.classes, imageFolderOf,
      find_classes, List.insertionSort, List.orderedInsert] <;> decide

/-- C2 (evaluation of the defect): on an empty test split, `test_model`
reaches the division at model.py line 192 with zero processed samples and
raises `ZeroDivisionError`; it reports no sentinel result. -/
theorem test_model_empty_split_crashes :
    test_model cLib cNames cFs "ckpt" cModel [] =
      .error .zeroDivisionError := by
  simp [test_model, load_model, torch_load, cFs, cModel, cSd,
    SimpleCardClassifier.load_state_dict, keysOf, pydiv, Bind.bind,
    Except.bind, Pure.pure, Except.pure]

/-- C7: for every valid input image, whatever its dimensions or aspect
ratio, the shared transform — resize to 128 × 128 then tensor conversion,
applied both by the datasets and by `preprocess_image` — produces a tensor
of exactly 3 channels, each of 128 rows of 128 values, with every value in
`[0, 1]`. -/
theorem transforms_shape_and_range (im : Img) (h : im.valid) :
    (transforms im).length = 3 ∧
      ∀ ch ∈ transforms im, ch.length = 128 ∧
        ∀ row ∈ ch, row.length = 128 ∧ ∀ v ∈ row, 0 ≤ v ∧ v ≤ 1 := by
  obtain ⟨hw, hh, hpx⟩ := h
  have hin : ∀ x y, x < 128 → y < 128 →
      x * im.width / 128 < im.width ∧ y * im.height / 128 < im.height :=
    fun x y hx hy => ⟨sample_coord_lt x 128 im.width hx hw,
      sample_coord_lt y 128 im.height hy hh⟩
  have key : ∀ sel : ℕ × ℕ × ℕ → ℕ,
      (∀ x y, x < 128 → y < 128 →
        sel ((im.resize (128, 128)).pix x y) ≤ 255) →
      (channelOf sel (im.resize (128, 128))).length = 128 ∧
        ∀ row ∈ channelOf sel (im.resize (128, 128)), row.length = 128 ∧
          ∀ v ∈ row, 0 ≤ v ∧ v ≤ 1 := by
    intro sel hsel
    refine ⟨by simp [channelOf, Img.resize], ?_⟩
    intro row hrow
    simp only [channelOf, Img.resize, List.mem_map, List.mem_range] at hrow
    obtain ⟨y, hy, rfl⟩ := hrow
    refine ⟨by simp, ?_⟩
    intro v hv
    simp only [List.mem_map, List.mem_range] at hv
    obtain ⟨x, hx, rfl⟩ := hv
    refine ⟨by positivity, ?_⟩
    rw [div_le_one (by norm_num)]
    have hb := hsel x y hx hy
    simp only [Img.resize] at hb
    exact_mod_cast hb
  refine ⟨rfl, ?_⟩
  intro ch hch
  have hch' : ch = channelOf (fun c => c.1) (im.resize (128, 128)) ∨
      ch = channelOf (fun c => c.2.1) (im.resize (128, 128)) ∨
      ch = channelOf (fun c => c.2.2) (im.resize (128, 128)) := by
    simpa [transforms, Img.toTensor] using hch
  rcases hch' with rfl | rfl | rfl
  · refine key _ ?_
    intro x y hx hy
    simp only [Img.resize]
    exact (hpx _ _ (hin x y hx hy).1 (hin x y hx hy).2).1
  · refine key _ ?_
    intro x y hx hy
    simp only [Img.resize]
    exact (hpx _ _ (hin x y hx hy).1 (hin x y hx hy).2).2.1
  · refine key _ ?_
    intro x y hx hy
    simp only [Img.resize]
    exact (hpx _ _ (hin x y hx hy).1 (hin x y hx hy).2).2.2

/-- Witness for C7 at a concrete valid 1 × 1 image. -/
theorem transforms_shape_and_range_witness :
    cImg.valid ∧
      ((transforms cImg).length = 3 ∧
        ∀ ch ∈ transforms cImg, ch.length = 128 ∧
          ∀ row ∈ ch, row.length = 128 ∧ ∀ v ∈ row, 0 ≤ v ∧ v ≤ 1) :=
  have hv : cImg.valid :=
    ⟨Nat.one_pos, Nat.one_pos, fun _ _ _ _ =>
      ⟨Nat.zero_le _, Nat.zero_le _, Nat.zero_le _⟩⟩
  ⟨hv, transforms_shape_and_range cImg hv⟩

/-- C4: saving a classifier's parameter state to a checkpoint (as
`train_model` does) and immediately loading that checkpoint into a freshly
constructed classifier of the same architecture (same parameter and buffer
names, as `load_model` does) succeeds, reproduces the identical state
dictionary, and therefore yields bit-identical predictions on every
input. -/
theorem save_load_round_trip (L : TorchLib) (fs : FS) (path : String)
    (m m' : SimpleCardClassifier) (xb : List TensorI)
    (hp : keysOf m.params = keysOf m'.params)
    (hb : keysOf m.buffers = keysOf m'.buffers) :
    (load_model (torch_save m.state_dict path fs) path m').map
        SimpleCardClassifier.state_dict = .ok m.state_dict ∧
      (load_model (torch_save m.state_dict path fs) path m').map
        (fun lm => (predict L lm xb).1) = .ok (predict L m xb).1 := by
  have hload : load_model (torch_save m.state_dict path fs) path m' =
      .ok ⟨m.params, m.buffers, false⟩ := by
    simp [load_model, torch_save, torch_load,
      SimpleCardClassifier.load_state_dict, SimpleCardClassifier.state_dict,
      hp, hb, Bind.bind, Except.bind, Pure.pure, Except.pure]
  rw [hload]
  refine ⟨by simp [Except.map, SimpleCardClassifier.state_dict], ?_⟩
  simp [Except.map, predict_eval]

/-- Witness for C4 at a concrete classifier, checkpoint path and (empty)
input batch. -/
theorem save_load_round_trip_witness :
    (keysOf cModel.params = keysOf cLoaded.params ∧
        keysOf cModel.buffers = keysOf cLoaded.buffers) ∧
      ((load_model (torch_save cModel.state_dict "p" cFs) "p" cLoaded).map
          SimpleCardClassifier.state_dict = .ok cModel.state_dict ∧
        (load_model (torch_save cModel.state_dict "p" cFs) "p" cLoaded).map
          (fun lm => (predict cLib lm []).1) = .ok (predict cLib cModel []).1) :=
  ⟨⟨rfl, rfl⟩, save_load_round_trip cLib cFs "p" cModel cLoaded [] rfl rfl⟩

/-- C8: calls to `predict_image` are observationally independent — each
call reloads the checkpoint from disk and fully overwrites the shared
default model instance's state, so whatever state preceding calls left
that instance in (any two states of the same architecture), a call with
the same checkpoint path and image file returns the same (predicted class
label, confidence) pair. -/
theorem predict_image_call_independence (L : TorchLib) (cn : List String)
    (fs : FS) (mp : String) (im : Img) (s1 s2 : SimpleCardClassifier)
    (hp : keysOf s1.params = keysOf s2.params)
    (hb : keysOf s1.buffers = keysOf s2.buffers) :
    (predict_image L cn fs mp im s1).map Prod.fst =
      (predict_image L cn fs mp im s2).map Prod.fst := by
  unfold predict_image load_model
  cases hfs : fs mp with
  | none => simp [torch_load, hfs, Bind.bind, Except.bind]
  | some sd =>
      simp only [torch_load, hfs, Bind.bind, Except.bind]
      by_cases hk : keysOf sd.params = keysOf s1.params ∧
          keysOf sd.buffers = keysOf s1.buffers
      · have hk2 : keysOf sd.params = keysOf s2.params ∧
            keysOf sd.buffers = keysOf s2.buffers :=
          ⟨hk.1.trans hp, hk.2.trans hb⟩
        simp [SimpleCardClassifier.load_state_dict, hk.1, hk.2, hk2.1, hk2.2,
          hp, hb, Pure.pure, Except.pure]
      · have hk2 : ¬(keysOf sd.params = keysOf s2.params ∧
            keysOf sd.buffers = keysOf s2.buffers) := by
          intro hc
          exact hk ⟨hc.1.trans hp.symm, hc.2.trans hb.symm⟩
        simp [SimpleCardClassifier.load_state_dict, hk, hk2, Pure.pure,
          Except.pure]

/-- Witness for C8: two different states of the shared model instance
(the fresh one and an already-loaded one) produce the same result. -/
theorem predict_image_call_independence_witness :
    (keysOf cModel.params = keysOf cLoaded.params ∧
        keysOf cModel.buffers = keysOf cLoaded.buffers) ∧
      (predict_image cLib cNames cFs "ckpt" cImg cModel).map Prod.fst =
        (predict_image cLib cNames cFs "ckpt" cImg cLoaded).map Prod.fst :=
  ⟨⟨rfl, rfl⟩,
    predict_image_call_independence cLib cNames cFs "ckpt" cImg cModel
      cLoaded rfl rfl⟩

/-- One evaluation-loop step in closed form: with the module in evaluation
mode, the step increments exactly one of the two counters — according to
whether the arg-max prediction matches the label — and appends the
winning-class confidence, leaving the module untouched. -/
theorem testStep_eval (L : TorchLib) (cn : List String) (acc : TestAcc)
    (s : TensorI × ℕ) (hm : acc.m.training = false) :
    testStep L cn acc s =
      if isCorrect L acc.m s then
        { acc with
            correct_predictions_count := acc.correct_predictions_count + 1
            confidence_list :=
              acc.confidence_list ++ [winningConfidence L acc.m s.1] }
      else
        { acc with
            wrong_predictions_count := acc.wrong_predictions_count + 1
            confidence_list :=
              acc.confidence_list ++ [winningConfidence L acc.m s.1] } := by
  obtain ⟨w, c, cl, m⟩ := acc
  obtain ⟨x, lab⟩ := s
  simp only [testStep, forwardRun, winningConfidence, isCorrect] at *
  rw [hm]
  by_cases h : argmax (softmax L.exp (L.net m.params m.buffers x)) = lab
  · simp [h]
  · simp [h]

/-- The whole evaluation loop in closed form: the wrong and correct
counters receive the sizes of the two halves of the sample list split by
arg-max correctness, the confidence list collects every sample's winning
confidence, and the module is untouched. -/
theorem testFold_char (L : TorchLib) (cn : List String)
    (m : SimpleCardClassifier) (hm : m.training = false)
    (ts : List (TensorI × ℕ)) :
    ∀ (w c : ℕ) (cl : List ℚ),
      ts.foldl (testStep L cn) ⟨w, c, cl, m⟩ =
        ⟨w + (ts.filter fun s => !isCorrect L m s).length,
          c + (ts.filter fun s => isCorrect L m s).length,
          cl ++ ts.map fun s => winningConfidence L m s.1, m⟩ := by
  induction ts with
  | nil => intro w c cl; simp
  | cons s ss ih =>
      intro w c cl
      rw [List.foldl_cons, testStep_eval L cn _ s hm]
      by_cases h : isCorrect L m s
      · rw [if_pos h, ih]
        simp [List.filter_cons, h, TestAcc.mk.injEq]
        omega
      · rw [if_neg h, ih]
        simp [List.filter_cons, h, TestAcc.mk.injEq]
        omega

/-- A correct-over-total percentage with a positive total lies in
`[0, 100]`. -/
theorem accuracy_bounds (c w n : ℕ) (hsum : c + w = n) (hn : n ≠ 0) :
    0 ≤ (c : ℚ) / ((c : ℚ) + (w : ℚ)) * 100 ∧
      (c : ℚ) / ((c : ℚ) + (w : ℚ)) * 100 ≤ 100 := by
  have hdenpos : (0 : ℚ) < (c : ℚ) + (w : ℚ) := by
    rw [← Nat.cast_add, hsum]
    exact_mod_cast Nat.pos_of_ne_zero hn
  constructor
  · positivity
  · have hfrac : (c : ℚ) / ((c : ℚ) + (w : ℚ)) ≤ 1 := by
      rw [div_le_one hdenpos]
      have hw : (0 : ℚ) ≤ (w : ℚ) := Nat.cast_nonneg w
      linarith
    calc (c : ℚ) / ((c : ℚ) + (w : ℚ)) * 100 ≤ 1 * 100 :=
          mul_le_mul_of_nonneg_right hfrac (by norm_num)
    _ = 100 := by norm_num

/-- Splitting a sample list by arg-max correctness loses no sample. -/
theorem length_filter_correct_split (L : TorchLib)
    (m : SimpleCardClassifier) (ts : List (TensorI × ℕ)) :
    (ts.filter fun s => isCorrect L m s).length +
      (ts.filter fun s => !isCorrect L m s).length = ts.length := by
  induction ts with
  | nil => rfl
  | cons s ss ih =>
      by_cases hc : isCorrect L m s <;>
        simp [List.filter_cons, hc] <;> omega

/-- Loading via `load_model` always returns a module in evaluation mode. -/
theorem load_model_ok_eval (fs : FS) (mp : String)
    (m0 m : SimpleCardClassifier) (h : load_model fs mp m0 = .ok m) :
    m.training = false := by
  unfold load_model torch_load at h
  cases hfs : fs mp with
  | none => rw [hfs] at h; simp [Bind.bind, Except.bind] at h
  | some sd =>
      rw [hfs] at h
      simp only [Bind.bind, Except.bind] at h
      by_cases hk : keysOf sd.params = keysOf m0.params ∧
          keysOf sd.buffers = keysOf m0.buffers
      · simp only [SimpleCardClassifier.load_state_dict, if_pos hk,
          Pure.pure, Except.pure, Except.ok.injEq] at h
        rw [← h]
      · simp [SimpleCardClassifier.load_state_dict, hk] at h

/-- Evaluating `test_model` in closed form on a non-empty test set, given a
successful load: the report counts the correctly and incorrectly
classified samples, accuracy is their ratio as a percentage, and the
average confidence is the mean winning confidence; the module comes back
exactly as loaded. -/
theorem test_model_char (L : TorchLib) (cn : List String) (fs : FS)
    (mp : String) (m0 m : SimpleCardClassifier) (ts : List (TensorI × ℕ))
    (hload : load_model fs mp m0 = .ok m) (hne : ts ≠ []) :
    test_model L cn fs mp m0 ts =
      .ok (⟨(ts.filter fun s => isCorrect L m s).length,
            (ts.filter fun s => !isCorrect L m s).length,
            ((ts.filter fun s => isCorrect L m s).length : ℚ) /
                (((ts.filter fun s => isCorrect L m s).length : ℚ) +
                  ((ts.filter fun s => !isCorrect L m s).length : ℚ)) * 100,
            (ts.map fun s => winningConfidence L m s.1).sum / ts.length⟩,
          m) := by
  have hm := load_model_ok_eval fs mp m0 m hload
  have hsplit := length_filter_correct_split L m ts
  have hlen : ts.length ≠ 0 := by
    intro h0
    exact hne (List.length_eq_zero.mp h0)
  have hden : ((ts.filter fun s => isCorrect L m s).length : ℚ) +
      ((ts.filter fun s => !isCorrect L m s).length : ℚ) ≠ 0 := by
    rw [← Nat.cast_add, hsplit]
    exact_mod_cast hlen
  unfold test_model
  rw [hload]
  simp only [Bind.bind, Except.bind]
  rw [testFold_char L cn m hm ts 0 0 []]
  simp only [Nat.zero_add, List.nil_append, pydiv, if_neg hden]
  have htslen : ((ts.length : ℚ)) ≠ 0 := by exact_mod_cast hlen
  simp only [Bind.bind, Except.bind, List.length_map, if_neg htslen,
    Pure.pure, Except.pure]

/-- C3: whenever the Evaluator returns a report, each sample was counted
as exactly one of correct or incorrect, so the two counters sum to the
number of samples processed; the reported accuracy equals
correct / (correct + incorrect) × 100 and lies in [0, 100]; and the
reported average confidence is the arithmetic mean of the winning-class
confidences of all samples, correct and incorrect alike. -/
theorem test_model_report_correct (L : TorchLib) (cn : List String)
    (fs : FS) (mp : String) (m0 : SimpleCardClassifier)
    (ts : List (TensorI × ℕ)) (r : TestReport) (mF : SimpleCardClassifier)
    (h : test_model L cn fs mp m0 ts = .ok (r, mF)) :
    r.correct_predictions_count + r.wrong_predictions_count = ts.length ∧
      r.acuracy = (r.correct_predictions_count : ℚ) /
          ((r.correct_predictions_count : ℚ) +
            (r.wrong_predictions_count : ℚ)) * 100 ∧
      0 ≤ r.acuracy ∧ r.acuracy ≤ 100 ∧
      r.avr_confidence =
        (ts.map fun s => winningConfidence L mF s.1).sum / ts.length := by
  cases hl : load_model fs mp m0 with
  | error e =>
      exfalso
      unfold test_model at h
      rw [hl] at h
      simp [Bind.bind, Except.bind] at h
  | ok m =>
      by_cases hts : ts = []
      · exfalso
        subst hts
        unfold test_model at h
        rw [hl] at h
        simp [Bind.bind, Except.bind, pydiv] at h
      · rw [test_model_char L cn fs mp m0 m ts hl hts] at h
        have hh := Except.ok.inj h
        have hr : (⟨(ts.filter fun s => isCorrect L m s).length,
              (ts.filter fun s => !isCorrect L m s).length,
              ((ts.filter fun s => isCorrect L m s).length : ℚ) /
                  (((ts.filter fun s => isCorrect L m s).length : ℚ) +
                    ((ts.filter fun s => !isCorrect L m s).length : ℚ)) *
                  100,
              (ts.map fun s => winningConfidence L m s.1).sum / ts.length⟩ :
            TestReport) = r := congrArg Prod.fst hh
        have hmF : m = mF := congrArg Prod.snd hh
        subst hr
        subst hmF
        have hsplit := length_filter_correct_split L m ts
        have hlen : ts.length ≠ 0 := fun h0 => hts (List.length_eq_zero.mp h0)
        exact ⟨hsplit, rfl, (accuracy_bounds _ _ _ hsplit hlen).1,
          (accuracy_bounds _ _ _ hsplit hlen).2, rfl⟩

/-- Witness for C3 at a concrete run: one sample, predicted class 0 with
label 0, reported accuracy 100 and mean confidence 50. -/
theorem test_model_report_correct_witness :
    test_model cLib cNames cFs "ckpt" cModel [(([] : TensorI), 0)] =
      .ok (⟨1, 0, 100, 50⟩, cLoaded) ∧
      ((⟨1, 0, 100, 50⟩ : TestReport).correct_predictions_count +
          (⟨1, 0, 100, 50⟩ : TestReport).wrong_predictions_count =
            [(([] : TensorI), 0)].length ∧
        (⟨1, 0, 100, 50⟩ : TestReport).acuracy =
          ((⟨1, 0, 100, 50⟩ : TestReport).correct_predictions_count : ℚ) /
            (((⟨1, 0, 100, 50⟩ : TestReport).correct_predictions_count : ℚ) +
              ((⟨1, 0, 100, 50⟩ : TestReport).wrong_predictions_count : ℚ)) *
            100 ∧
        0 ≤ (⟨1, 0, 100, 50⟩ : TestReport).acuracy ∧
        (⟨1, 0, 100, 50⟩ : TestReport).acuracy ≤ 100 ∧
        (⟨1, 0, 100, 50⟩ : TestReport).avr_confidence =
          ([(([] : TensorI), 0)].map fun s =>
            winningConfidence cLib cLoaded s.1).sum /
            ([(([] : TensorI), 0)].length : ℚ)) := by
  have hrun : test_model cLib cNames cFs "ckpt" cModel [(([] : TensorI), 0)] =
      .ok (⟨1, 0, 100, 50⟩, cLoaded) := by
    simp [test_model, load_model, torch_load, cFs, cModel, cSd, cLoaded,
      cNames, cLib, SimpleCardClassifier.load_state_dict, keysOf, pydiv,
      Bind.bind, Except.bind, Pure.pure, Except.pure, testStep, forwardRun,
      softmax, argmax, argmaxAux]
    norm_num
  exact ⟨hrun,
    test_model_report_correct cLib cNames cFs "ckpt" cModel
      [(([] : TensorI), 0)] ⟨1, 0, 100, 50⟩ cLoaded hrun⟩

/-- C10: evaluation and inference never modify model parameters.  On any
non-empty test set, `test_model` returns the module exactly as
`load_model` produced it; `predict` returns the module it was given,
merely switched to evaluation mode (parameters and buffers untouched);
and `predict_image` likewise returns the module exactly as loaded. -/
theorem eval_inference_leave_parameters (L : TorchLib) (cn : List String)
    (fs : FS) (mp : String) (m0 m : SimpleCardClassifier)
    (ts : List (TensorI × ℕ)) (xb : List TensorI) (im : Img)
    (hts : ts ≠ []) :
    (test_model L cn fs mp m0 ts).map (fun r => r.2) = load_model fs mp m0 ∧
      (predict L m xb).2 = { m with training := false } ∧
      (predict_image L cn fs mp im m0).map (fun r => r.2) =
        load_model fs mp m0 := by
  refine ⟨?_, by rw [predict_eval], ?_⟩
  · cases hl : load_model fs mp m0 with
    | error e =>
        unfold test_model
        rw [hl]
        simp [Bind.bind, Except.bind, Except.map]
    | ok m1 =>
        rw [test_model_char L cn fs mp m0 m1 ts hl hts]
        simp [Except.map]
  · cases hl : load_model fs mp m0 with
    | error e =>
        unfold predict_image
        rw [hl]
        simp [Bind.bind, Except.bind, Except.map]
    | ok m1 =>
        have hm1 := load_model_ok_eval fs mp m0 m1 hl
        unfold predict_image
        rw [hl]
        simp only [Bind.bind, Except.bind, Pure.pure, Except.pure,
          Except.map, predict_eval]
        obtain ⟨p, bf, tr⟩ := m1
        simp only at hm1
        rw [hm1]

/-- Witness for C10 at a concrete loaded model and one-sample test set. -/
theorem eval_inference_leave_parameters_witness :
    ([(([] : TensorI), 0)] : List (TensorI × ℕ)) ≠ [] ∧
      ((test_model cLib cNames cFs "ckpt" cModel
            [(([] : TensorI), 0)]).map (fun r => r.2) =
          load_model cFs "ckpt" cModel ∧
        (predict cLib cLoaded []).2 = { cLoaded with training := false } ∧
        (predict_image cLib cNames cFs "ckpt" cImg cModel).map
            (fun r => r.2) = load_model cFs "ckpt" cModel) :=
  ⟨by simp,
    eval_inference_leave_parameters cLib cNames cFs "ckpt" cModel cLoaded
      [(([] : TensorI), 0)] [] cImg (by simp)⟩

/-- The helper `argmaxAux` indexes the running maximum: if index `best` of `v` holds
the running value `bv` and the remaining entries `xs` sit in `v` from
position `i` on, the returned index holds the maximum of `bv` and `xs`. -/
theorem argmaxAux_getD (v : List ℚ) :
    ∀ (xs : List ℚ) (i best : ℕ) (bv : ℚ),
      v.getD best 0 = bv →
      (∀ k, xs.getD k 0 = v.getD (i + k) 0) →
      v.getD (argmaxAux xs i best bv) 0 = xs.foldl max bv := by
  intro xs
  induction xs with
  | nil => intro i best bv h1 _; simpa [argmaxAux] using h1
  | cons x xs ih =>
      intro i best bv h1 h2
      have hx : v.getD i 0 = x := by
        have := h2 0
        simpa using this.symm
      have h2' : ∀ k, xs.getD k 0 = v.getD (i + 1 + k) 0 := by
        intro k
        have := h2 (k + 1)
        have harr : i + (k + 1) = i + 1 + k := by omega
        rw [harr] at this
        simpa using this
      rw [argmaxAux]
      by_cases hlt : bv < x
      · rw [if_pos hlt, ih (i + 1) i x hx h2', List.foldl_cons,
          max_eq_right (le_of_lt hlt)]
      · rw [if_neg hlt, ih (i + 1) best bv h1 h2', List.foldl_cons,
          max_eq_left (le_of_not_lt hlt)]

/-- The entry `numpy.argmax` points at is the maximum of the list. -/
theorem argmax_getD (x : ℚ) (xs : List ℚ) :
    (x :: xs).getD (argmax (x :: xs)) 0 = listMax (x :: xs) := by
  rw [argmax, listMax]
  apply argmaxAux_getD (x :: xs) xs 1 0 x rfl
  intro k
  rw [Nat.add_comm 1 k]
  rfl

/-- The maximum of a non-empty list is one of its entries. -/
theorem listMax_mem (x : ℚ) (xs : List ℚ) : listMax (x :: xs) ∈ x :: xs := by
  rw [listMax]
  induction xs generalizing x with
  | nil => simp
  | cons y ys ih =>
      rw [List.foldl_cons]
      rcases max_choice x y with hm | hm <;> rw [hm]
      · rcases List.mem_cons.mp (ih x) with hh | hh
        · rw [hh]
          exact List.mem_cons_self _ _
        · exact List.mem_cons_of_mem _ (List.mem_cons_of_mem _ hh)
      · rcases List.mem_cons.mp (ih y) with hh | hh
        · rw [hh]
          exact List.mem_cons_of_mem _ (List.mem_cons_self _ _)
        · exact List.mem_cons_of_mem _ (List.mem_cons_of_mem _ hh)

/-- A fold of `max` dominates its seed. -/
theorem le_foldl_max (l : List ℚ) : ∀ bv : ℚ, bv ≤ l.foldl max bv := by
  induction l with
  | nil => intro bv; simp
  | cons y ys ih =>
      intro bv
      rw [List.foldl_cons]
      exact le_trans (le_max_left bv y) (ih _)

/-- Every entry of a non-empty list is at most its maximum. -/
theorem le_listMax (x : ℚ) (xs : List ℚ) :
    ∀ a ∈ x :: xs, a ≤ listMax (x :: xs) := by
  rw [listMax]
  induction xs generalizing x with
  | nil =>
      intro a ha
      rcases List.mem_cons.mp ha with rfl | hh
      · simp
      · simp at hh
  | cons y ys ih =>
      intro a ha
      rw [List.foldl_cons]
      rcases List.mem_cons.mp ha with rfl | hh
      · exact le_trans (le_max_left a y) (le_foldl_max ys _)
      · rcases List.mem_cons.mp hh with rfl | hh'
        · exact le_trans (le_max_right x a) (le_foldl_max ys _)
        · exact ih (max x y) a (List.mem_cons_of_mem _ hh')

/-- Summing after dividing every entry by a constant divides the sum. -/
theorem sum_map_div_const (l : List ℚ) (c : ℚ) :
    (l.map fun x => x / c).sum = l.sum / c := by
  induction l with
  | nil => simp
  | cons y ys ih => simp [ih, add_div]

/-- With a positive exponential, every softmax output is non-negative. -/
theorem softmax_nonneg (e : ℚ → ℚ) (hpos : ∀ x, 0 < e x) (v : List ℚ) :
    ∀ q ∈ softmax e v, 0 ≤ q := by
  intro q hq
  obtain ⟨x, hx, rfl⟩ := List.mem_map.mp hq
  have hS : 0 < (v.map e).sum := by
    apply List.sum_pos
    · intro y hy
      obtain ⟨z, _, rfl⟩ := List.mem_map.mp hy
      exact hpos z
    · simpa using List.ne_nil_of_mem hx
  exact le_of_lt (div_pos (hpos x) hS)

/-- With a positive exponential, the softmax of a non-empty logit vector
sums to exactly 1. -/
theorem softmax_sum_one (e : ℚ → ℚ) (hpos : ∀ x, 0 < e x) (v : List ℚ)
    (hv : v ≠ []) : (softmax e v).sum = 1 := by
  have hS : 0 < (v.map e).sum := by
    apply List.sum_pos
    · intro y hy
      obtain ⟨z, _, rfl⟩ := List.mem_map.mp hy
      exact hpos z
    · simpa using hv
  rw [softmax]
  have : (v.map fun x => e x / (v.map e).sum) =
      ((v.map e).map fun x => x / (v.map e).sum) := by
    rw [List.map_map]
    rfl
  rw [this, sum_map_div_const, div_self (ne_of_gt hS)]

/-- C9: for every input image, the probability vector produced by
inference (softmax over the classifier's logits, as `predict` computes it)
has only non-negative entries, sums to exactly 1, and the confidence —
the arg-max entry times 100, as `predict_image` and `test_model` compute
it — equals the maximum entry times 100 and lies in `[0, 100]`.  The
hypotheses state the two facts about the external library the code relies
on: the exponential is positive, and the constructed classifier's logit
vector is non-empty (53 classes). -/
theorem inference_probability_vector (L : TorchLib)
    (m : SimpleCardClassifier) (t : TensorI)
    (hpos : ∀ x, 0 < L.exp x)
    (hne : L.net m.params m.buffers t ≠ []) :
    (predict L m [t]).1 = softmax L.exp (L.net m.params m.buffers t) ∧
      (∀ q ∈ (predict L m [t]).1, 0 ≤ q) ∧
      (predict L m [t]).1.sum = 1 ∧
      (predict L m [t]).1.getD (argmax (predict L m [t]).1) 0 * 100 =
        listMax (predict L m [t]).1 * 100 ∧
      0 ≤ (predict L m [t]).1.getD (argmax (predict L m [t]).1) 0 * 100 ∧
      (predict L m [t]).1.getD (argmax (predict L m [t]).1) 0 * 100 ≤ 100 := by
  have hfst : (predict L m [t]).1 =
      softmax L.exp (L.net m.params m.buffers t) := by
    rw [predict_eval]
    simp
  have hnn : ∀ q ∈ (predict L m [t]).1, 0 ≤ q := by
    rw [hfst]
    exact softmax_nonneg L.exp hpos _
  have hsum : (predict L m [t]).1.sum = 1 := by
    rw [hfst]
    exact softmax_sum_one L.exp hpos _ hne
  have hpne : (predict L m [t]).1 ≠ [] := by
    rw [hfst, softmax]
    simpa using hne
  obtain ⟨q, qs, hqs⟩ := List.exists_cons_of_ne_nil hpne
  have hmaxeq : (predict L m [t]).1.getD (argmax (predict L m [t]).1) 0 =
      listMax (predict L m [t]).1 := by
    rw [hqs]
    exact argmax_getD q qs
  have hmem : listMax (predict L m [t]).1 ∈ (predict L m [t]).1 := by
    rw [hqs]
    exact listMax_mem q qs
  have hmax0 : 0 ≤ listMax (predict L m [t]).1 := hnn _ hmem
  have hmax1 : listMax (predict L m [t]).1 ≤ 1 := by
    have := List.single_le_sum hnn _ hmem
    rw [hsum] at this
    exact this
  refine ⟨hfst, hnn, hsum, by rw [hmaxeq], ?_, ?_⟩
  · rw [hmaxeq]
    exact mul_nonneg hmax0 (by norm_num)
  · rw [hmaxeq]
    calc listMax (predict L m [t]).1 * 100 ≤ 1 * 100 :=
          mul_le_mul_of_nonneg_right hmax1 (by norm_num)
    _ = 100 := by norm_num

/-- Witness for C9 at the concrete library and loaded model. -/
theorem inference_probability_vector_witness :
    ((∀ x, 0 < cLib.exp x) ∧
        cLib.net cLoaded.params cLoaded.buffers ([] : TensorI) ≠ []) ∧
      ((predict cLib cLoaded [([] : TensorI)]).1 =
          softmax cLib.exp
            (cLib.net cLoaded.params cLoaded.buffers ([] : TensorI)) ∧
        (∀ q ∈ (predict cLib cLoaded [([] : TensorI)]).1, 0 ≤ q) ∧
        (predict cLib cLoaded [([] : TensorI)]).1.sum = 1 ∧
        (predict cLib cLoaded [([] : TensorI)]).1.getD
            (argmax (predict cLib cLoaded [([] : TensorI)]).1) 0 * 100 =
          listMax (predict cLib cLoaded [([] : TensorI)]).1 * 100 ∧
        0 ≤ (predict cLib cLoaded [([] : TensorI)]).1.getD
            (argmax (predict cLib cLoaded [([] : TensorI)]).1) 0 * 100 ∧
        (predict cLib cLoaded [([] : TensorI)]).1.getD
            (argmax (predict cLib cLoaded [([] : TensorI)]).1) 0 * 100 ≤
          100) :=
  have hpos : ∀ x, 0 < cLib.exp x := fun _ => by norm_num [cLib]
  have hne : cLib.net cLoaded.params cLoaded.buffers ([] : TensorI) ≠ [] :=
    by simp [cLib]
  ⟨⟨hpos, hne⟩,
    inference_probability_vector cLib cLoaded ([] : TensorI) hpos hne⟩

/-- The training phase in closed form: its final state folds `trainBatch`
over the batches, its running loss is the sum of the per-batch losses
weighted by batch size, and its trace lists the five prescribed actions
once per batch. -/
theorem trainPhase_eq (L : TorchLib) (lr : ℚ) :
    ∀ (bs : List Batch) (st : TrainState),
      trainPhase L lr st bs =
        (bs.foldl (fun s b => (trainBatch L lr s b).1) st,
          (weightedBatchLosses L lr st bs).sum, trainBatchTrace lr bs) := by
  intro bs
  induction bs with
  | nil =>
      intro st
      simp [trainPhase, weightedBatchLosses, trainBatchTrace]
  | cons b bs ih =>
      intro st
      rw [trainPhase, ih]
      simp [weightedBatchLosses, trainBatchTrace, trainBatch, batchCE]

/-- The validation phase in closed form, from an evaluation-mode state:
the state comes back untouched, the running loss is the sum of the
per-batch losses at that fixed state weighted by batch size, and the
trace holds forward and loss actions only. -/
theorem valPhase_eval (L : TorchLib) (st : TrainState)
    (hst : st.m.training = false) :
    ∀ bs : List Batch,
      valPhase L st bs =
        (st, (bs.map fun b =>
            batchCE L st.m.params st.m.buffers b * b.length).sum,
          valBatchTrace bs) := by
  obtain ⟨⟨p, bf, tr⟩, o⟩ := st
  simp only at hst
  subst hst
  intro bs
  induction bs with
  | nil => simp [valPhase, valBatchTrace]
  | cons b bs ih =>
      rw [valPhase]
      simp only [valBatch, Bool.false_eq_true, if_false]
      rw [ih]
      simp [valBatchTrace]

/-- One epoch in closed form, for non-empty train and validation
datasets: the epoch ends at `epochEndState` (the training phase's state
switched to evaluation mode — the validation phase changes nothing), the
two reported losses are the dataset-size-weighted means, and the trace is
`epochTrace`. -/
theorem epochRun_spec (L : TorchLib) (lr : ℚ) (tb vb : List Batch)
    (nT nV : ℕ) (hT : nT ≠ 0) (hV : nV ≠ 0) (st : TrainState) :
    epochRun L lr tb vb nT nV st =
      .ok (epochEndState L lr tb st, epochTrainLoss L lr tb nT st,
        epochValLoss L lr tb vb nV st, epochTrace lr tb vb) := by
  have hTq : ((nT : ℚ)) ≠ 0 := by exact_mod_cast hT
  have hVq : ((nV : ℚ)) ≠ 0 := by exact_mod_cast hV
  have hA : afterTrainPhase L lr tb st =
      tb.foldl (fun s b => (trainBatch L lr s b).1) (trainModeOf st) := by
    rw [afterTrainPhase, trainPhase_eq]
  unfold epochRun
  rw [show (⟨{ st.m with training := true }, st.opt⟩ : TrainState) =
      trainModeOf st from rfl]
  rw [trainPhase_eq]
  simp only [pydiv, if_neg hTq, if_neg hVq, Bind.bind, Except.bind]
  rw [← hA]
  rw [valPhase_eval L
    ⟨{ (afterTrainPhase L lr tb st).m with training := false },
      (afterTrainPhase L lr tb st).opt⟩ rfl vb]
  simp only [Pure.pure, Except.pure, Except.ok.injEq, epochEndState,
    epochTrainLoss, epochValLoss, epochTrace, hA]

/-- The epoch loop in closed form: `n` epochs iterate `epochEndState`
from the initial state, report the per-epoch dataset-size-weighted mean
losses at each intermediate state, and emit `n` copies of the epoch
trace. -/
theorem epochsRun_spec (L : TorchLib) (lr : ℚ) (tb vb : List Batch)
    (nT nV : ℕ) (hT : nT ≠ 0) (hV : nV ≠ 0) :
    ∀ (n : ℕ) (st : TrainState),
      epochsRun L lr tb vb nT nV n st =
        .ok ((epochEndState L lr tb)^[n] st,
          (List.range n).map (fun i =>
            epochTrainLoss L lr tb nT ((epochEndState L lr tb)^[i] st)),
          (List.range n).map (fun i =>
            epochValLoss L lr tb vb nV ((epochEndState L lr tb)^[i] st)),
          (List.replicate n (epochTrace lr tb vb)).flatten) := by
  intro n
  induction n with
  | zero => intro st; simp [epochsRun]
  | succ n ih =>
      intro st
      rw [epochsRun, epochRun_spec L lr tb vb nT nV hT hV st]
      simp only [Bind.bind, Except.bind]
      rw [ih (epochEndState L lr tb st)]
      simp only [Pure.pure, Except.pure, Except.ok.injEq, Prod.mk.injEq]
      refine ⟨?_, ?_, ?_, ?_⟩
      · rw [Function.iterate_succ_apply]
      · rw [List.range_succ_eq_map]
        simp [Function.iterate_succ_apply, List.map_map, Function.comp_def]
      · rw [List.range_succ_eq_map]
        simp [Function.iterate_succ_apply, List.map_map, Function.comp_def]
      · simp [List.replicate_succ]

/-- C5: each epoch of `train_model` performs, per training batch, exactly
the sequence zero-gradients, forward, cross-entropy loss, backward, one
Adam step at learning rate 0.001 (`trainBatchTrace`, within
`epochTrace`); the validation phase runs in evaluation mode with gradient
tracking disabled, computes the same per-batch loss and performs no
parameter update — each epoch ends at `epochEndState`, which is defined
from the training phase alone; and both reported loss lists hold the
dataset-size-weighted mean loss of every epoch (`epochTrainLoss` and
`epochValLoss`: per-batch loss times batch size, summed, divided by the
dataset size). -/
theorem train_model_loop_structure (L : TorchLib) (fs : FS) (mp : String)
    (model : SimpleCardClassifier) (epochs : ℕ) (tb vb : List Batch)
    (nT nV : ℕ) (hT : nT ≠ 0) (hV : nV ≠ 0) :
    train_model L fs mp model epochs tb vb nT nV =
      .ok (torch_save ((epochEndState L (1 / 1000) tb)^[epochs]
            ⟨model, L.adamInit model.params⟩).m.state_dict mp fs,
        ((epochEndState L (1 / 1000) tb)^[epochs]
          ⟨model, L.adamInit model.params⟩).m,
        (List.range epochs).map (fun i =>
          epochTrainLoss L (1 / 1000) tb nT
            ((epochEndState L (1 / 1000) tb)^[i]
              ⟨model, L.adamInit model.params⟩)),
        (List.range epochs).map (fun i =>
          epochValLoss L (1 / 1000) tb vb nV
            ((epochEndState L (1 / 1000) tb)^[i]
              ⟨model, L.adamInit model.params⟩)),
        (List.replicate epochs (epochTrace (1 / 1000) tb vb)).flatten ++
          [.plotShow, .save mp ((epochEndState L (1 / 1000) tb)^[epochs]
            ⟨model, L.adamInit model.params⟩).m.state_dict]) := by
  simp only [train_model]
  rw [epochsRun_spec L (1 / 1000) tb vb nT nV hT hV epochs
    ⟨model, L.adamInit model.params⟩]
  simp [Bind.bind, Except.bind, Pure.pure, Except.pure]

/-- Witness for C5 at a concrete one-epoch run. -/
theorem train_model_loop_structure_witness :
    ((1 : ℕ) ≠ 0 ∧ (1 : ℕ) ≠ 0) ∧
      train_model cLib cFs "ckpt" cModel 1 [] [] 1 1 =
        .ok (torch_save ((epochEndState cLib (1 / 1000) [])^[1]
              ⟨cModel, cLib.adamInit cModel.params⟩).m.state_dict "ckpt" cFs,
          ((epochEndState cLib (1 / 1000) [])^[1]
            ⟨cModel, cLib.adamInit cModel.params⟩).m,
          (List.range 1).map (fun i =>
            epochTrainLoss cLib (1 / 1000) [] 1
              ((epochEndState cLib (1 / 1000) [])^[i]
                ⟨cModel, cLib.adamInit cModel.params⟩)),
          (List.range 1).map (fun i =>
            epochValLoss cLib (1 / 1000) [] [] 1
              ((epochEndState cLib (1 / 1000) [])^[i]
                ⟨cModel, cLib.adamInit cModel.params⟩)),
          (List.replicate 1 (epochTrace (1 / 1000) [] [])).flatten ++
            [.plotShow, .save "ckpt" ((epochEndState cLib (1 / 1000) [])^[1]
              ⟨cModel, cLib.adamInit cModel.params⟩).m.state_dict]) :=
  ⟨⟨by decide, by decide⟩,
    train_model_loop_structure cLib cFs "ckpt" cModel 1 [] [] 1 1
      (by decide) (by decide)⟩

/-- No training-phase action writes a checkpoint. -/
theorem trainBatchTrace_no_save (lr : ℚ) (bs : List Batch) :
    ∀ x ∈ trainBatchTrace lr bs, x.isSave = false := by
  intro x hx
  rw [trainBatchTrace] at hx
  obtain ⟨l, hl, hxl⟩ := List.mem_flatten.mp hx
  obtain ⟨b, _, rfl⟩ := List.mem_map.mp hl
  simp only [List.mem_cons, List.not_mem_nil, or_false] at hxl
  rcases hxl with rfl | rfl | rfl | rfl | rfl <;> rfl

/-- No validation-phase action writes a checkpoint. -/
theorem valBatchTrace_no_save (bs : List Batch) :
    ∀ x ∈ valBatchTrace bs, x.isSave = false := by
  intro x hx
  rw [valBatchTrace] at hx
  obtain ⟨l, hl, hxl⟩ := List.mem_flatten.mp hx
  obtain ⟨b, _, rfl⟩ := List.mem_map.mp hl
  simp only [List.mem_cons, List.not_mem_nil, or_false] at hxl
  rcases hxl with rfl | rfl <;> rfl

/-- No action of an epoch writes a checkpoint. -/
theorem epochTrace_no_save (lr : ℚ) (tb vb : List Batch) :
    ∀ x ∈ epochTrace lr tb vb, x.isSave = false := by
  intro x hx
  rw [epochTrace] at hx
  simp only [List.mem_append, List.mem_cons, List.not_mem_nil, or_false,
    List.mem_singleton] at hx
  rcases hx with ((((rfl | hx) | rfl | rfl) | hx) | rfl)
  · rfl
  · exact trainBatchTrace_no_save lr tb x hx
  · rfl
  · rfl
  · exact valBatchTrace_no_save vb x hx
  · rfl

/-- No action of the whole epoch loop writes a checkpoint. -/
theorem epochs_trace_no_save (lr : ℚ) (tb vb : List Batch) (n : ℕ) :
    ∀ x ∈ (List.replicate n (epochTrace lr tb vb)).flatten,
      x.isSave = false := by
  intro x hx
  obtain ⟨l, hl, hxl⟩ := List.mem_flatten.mp hx
  rw [List.eq_of_mem_replicate hl] at hxl
  exact epochTrace_no_save lr tb vb x hxl

/-- C6: whenever `train_model` completes, the filesystem it leaves behind
is the input filesystem with the final model's full state dictionary
written at the checkpoint path — overwriting whatever was there — and its
action trace ends with that single save, preceded by no other save (the
checkpoint is never written mid-run); `torch_save` overwrites any
existing file at the path; and a checkpoint must exist before evaluation
or inference can load it — `load_model` on a missing path fails with
`FileNotFoundError`. -/
theorem checkpoint_lifecycle (L : TorchLib) (fs : FS) (mp : String)
    (model : SimpleCardClassifier) (epochs : ℕ) (tb vb : List Batch)
    (nT nV : ℕ) (hT : nT ≠ 0) (hV : nV ≠ 0) :
    (∀ fsF mF tls vls ev,
        train_model L fs mp model epochs tb vb nT nV =
          .ok (fsF, mF, tls, vls, ev) →
        fsF = torch_save mF.state_dict mp fs ∧
          fsF mp = some mF.state_dict ∧
          ∃ pre, ev = pre ++ [.plotShow, .save mp mF.state_dict] ∧
            ∀ x ∈ pre, x.isSave = false) ∧
      (∀ (sd : StateDict) (path : String) (f : FS),
          torch_save sd path f path = some sd) ∧
      (∀ (f : FS) (path : String) (mm : SimpleCardClassifier),
          f path = none →
          load_model f path mm = .error .fileNotFoundError) := by
  refine ⟨?_, ?_, ?_⟩
  · intro fsF mF tls vls ev h
    simp only [train_model] at h
    rw [epochsRun_spec L (1 / 1000) tb vb nT nV hT hV epochs
      ⟨model, L.adamInit model.params⟩] at h
    simp only [Bind.bind, Except.bind, Pure.pure, Except.pure,
      Except.ok.injEq, Prod.mk.injEq] at h
    obtain ⟨h1, h2, _, _, h5⟩ := h
    subst h2
    refine ⟨h1.symm, ?_, ?_⟩
    · rw [← h1, torch_save]
      simp
    · exact ⟨_, h5.symm, epochs_trace_no_save (1 / 1000) tb vb epochs⟩
  · intro sd path f
    rw [torch_save]
    simp
  · intro f path mm hnone
    simp [load_model, torch_load, hnone, Bind.bind, Except.bind]

/-- Witness for C6 at a concrete one-epoch run. -/
theorem checkpoint_lifecycle_witness :
    ((1 : ℕ) ≠ 0 ∧ (1 : ℕ) ≠ 0) ∧
      ((∀ fsF mF tls vls ev,
          train_model cLib cFs "ckpt" cModel 1 [] [] 1 1 =
            .ok (fsF, mF, tls, vls, ev) →
          fsF = torch_save mF.state_dict "ckpt" cFs ∧
            fsF "ckpt" = some mF.state_dict ∧
            ∃ pre, ev = pre ++ [.plotShow, .save "ckpt" mF.state_dict] ∧
              ∀ x ∈ pre, x.isSave = false) ∧
        (∀ (sd : StateDict) (path : String) (f : FS),
            torch_save sd path f path = some sd) ∧
        (∀ (f : FS) (path : String) (mm : SimpleCardClassifier),
            f path = none →
            load_model f path mm = .error .fileNotFoundError)) :=
  ⟨⟨by decide, by decide⟩,
    checkpoint_lifecycle cLib cFs "ckpt" cModel 1 [] [] 1 1 (by decide)
      (by decide)⟩

end Card
